import Mathlib

/-!
Verification of the game-state machine of `app/game_logic.py`
(a two-phase sliding-square board game on a 3x3 grid of 2x2 squares).

The Python module is embedded shallowly: the mutable `GameState` dataclass
becomes an immutable structure, the two mutating transitions `apply_place`
and `apply_slide` become functions returning `Except GameError GameState`
(every `raise IllegalMove(...)` in the source happens before any mutation,
so a raised error leaves the Python state unchanged, which the functional
embedding reflects by returning `.error`), and the queries are pure
functions exactly as in the source.
-/

/-- `PlayerColor` enum of the source (`R` human, `B` AI). -/
inductive Player where
  | R
  | B
deriving DecidableEq, Repr

/-- `Phase` enum of the source. -/
inductive Phase where
  | placement
  | placementSlide
  | movement
deriving DecidableEq, Repr

/-- Error kinds raised by the source module: `IllegalMove(reason)` (a
`ValueError` subclass used for all in-play precondition violations) and the
plain `ValueError` raised by `new_state` on a non-positive capacity. -/
inductive GameError where
  | illegalMove (reason : String)
  | valueError (reason : String)
deriving DecidableEq, Repr

/-- The `GameState` dataclass: `board` is 9 squares of 4 slots each
(`None | "R" | "B"` modelled as `Option Player`), `placed` (a dict keyed by
the two players) is split into the two counters `placedR`/`placedB`. -/
structure GameState where
  board : List (List (Option Player))
  phase : Phase
  currentPlayer : Player
  placedR : Nat
  placedB : Nat
  piecesPerPlayer : Nat
  holeSquareIndex : Nat
  blockedSlideSquareIndex : Option Nat
  winner : Option Player
  drawReason : Option String
deriving DecidableEq, Repr

/-- `state.placed[player]` of the source. -/
def GameState.placed (s : GameState) (p : Player) : Nat :=
  match p with
  | .R => s.placedR
  | .B => s.placedB

/-- Reading `state.board[sq][sl]` (the source only does this at indices it
has already bounds-checked, so the `getD` defaults are never hit on the
9x4 boards of the data model). -/
def boardGet (b : List (List (Option Player))) (sq sl : Nat) : Option Player :=
  (b.getD sq []).getD sl none

/-- The in-place slot assignment `state.board[sq][sl] = v` of the source. -/
def boardSet (b : List (List (Option Player))) (sq sl : Nat) (v : Option Player) :
    List (List (Option Player)) :=
  b.set sq ((b.getD sq []).set sl v)

/-- `new_state`: fresh 9x4 empty board, hole at the centre square 4,
player R to move in `placement` phase; rejects a non-positive capacity with
a plain `ValueError` (not an `IllegalMove`). -/
def new_state (pieces_per_player : Int) : Except GameError GameState :=
  if pieces_per_player ≤ 0 then
    .error (.valueError "piecesPerPlayer must be positive")
  else
    .ok { board := List.replicate 9 [none, none, none, none]
          phase := .placement
          currentPlayer := .R
          placedR := 0
          placedB := 0
          piecesPerPlayer := pieces_per_player.toNat
          holeSquareIndex := 4
          blockedSlideSquareIndex := none
          winner := none
          drawReason := none }

/-- `_global_get`: global 6x6 cell (r, c) maps to square `(r//2)*3 + c//2`,
slot `(r%2)*2 + c%2`. -/
def _global_get (s : GameState) (r c : Nat) : Option Player :=
  boardGet s.board ((r / 2) * 3 + c / 2) ((r % 2) * 2 + c % 2)

/-- `detect_winner`: scan all 5x5 top-left positions of a 2x2 window over
the global 6x6 grid; the first window whose four cells hold the same owner
decides, exactly as the nested `for`/`return` of the source. -/
def detect_winner (s : GameState) : Option Player :=
  (List.range 5).findSome? fun r =>
    (List.range 5).findSome? fun c =>
      match _global_get s r c with
      | none => none
      | some a =>
        if _global_get s r (c + 1) = some a ∧ _global_get s (r + 1) c = some a ∧
            _global_get s (r + 1) (c + 1) = some a then
          some a
        else
          none

/-- The neighbour loop of `legal_slide_squares`: for each of the four
orthogonal offsets keep `r*3 + c` when `0 <= r <= 2` and `0 <= c <= 2`,
where `(hr, hc) = (h // 3, h % 3)`. -/
def slide_neighbors (h : Nat) : List Nat :=
  [((-1 : Int), (0 : Int)), (1, 0), (0, -1), (0, 1)].filterMap fun d =>
    let r : Int := (h : Int) / 3 + d.1
    let c : Int := (h : Int) % 3 + d.2
    if 0 ≤ r ∧ r ≤ 2 ∧ 0 ≤ c ∧ c ≤ 2 then some (r * 3 + c).toNat else none

/-- `legal_slide_squares`: orthogonal neighbours of the hole, with the
blocked (anti-backtrack) square filtered out when present. Pure. -/
def legal_slide_squares (s : GameState) : List Nat :=
  let out := slide_neighbors s.holeSquareIndex
  match s.blockedSlideSquareIndex with
  | none => out
  | some b => out.filter fun i => i ≠ b

/-- `_maybe_set_draw_no_slides`: in `movement` phase only, set
`drawReason = "noLegalSlides"` when the legal-slide list is empty. -/
def _maybe_set_draw_no_slides (s : GameState) : GameState :=
  if s.phase ≠ Phase.movement then s
  else if (legal_slide_squares s).length = 0 then
    { s with drawReason := some "noLegalSlides" }
  else s

/-- `PlayerColor.B if state.currentPlayer == PlayerColor.R else PlayerColor.R`. -/
def other (p : Player) : Player :=
  if p = .R then .B else .R

/-- The mutation block of `apply_place` (lines writing the slot and bumping
the placer's counter), as a single state-to-state function. -/
def place_effect (s : GameState) (squareIndex slotIndex : Nat) (player : Player) : GameState :=
  { s with
    board := boardSet s.board squareIndex slotIndex (some player)
    placedR := if player = .R then s.placedR + 1 else s.placedR
    placedB := if player = .B then s.placedB + 1 else s.placedB }

/-- `apply_place`: the guard chain of the source in order, then the slot
write / counter bump, then the win check, else phase `placementSlide`. -/
def apply_place (s : GameState) (squareIndex slotIndex : Nat) (player : Player) :
    Except GameError GameState :=
  if s.winner ≠ none ∨ s.drawReason ≠ none then
    .error (.illegalMove "game already finished")
  else if s.phase ≠ Phase.placement then
    .error (.illegalMove "cannot place in this phase")
  else if player ≠ s.currentPlayer then
    .error (.illegalMove "not your turn")
  else if ¬ squareIndex ≤ 8 then
    .error (.illegalMove "squareIndex out of bounds")
  else if ¬ slotIndex ≤ 3 then
    .error (.illegalMove "slotIndex out of bounds")
  else if squareIndex = s.holeSquareIndex then
    .error (.illegalMove "cannot place into the hole square")
  else if s.placed player ≥ s.piecesPerPlayer then
    .error (.illegalMove "no pieces remaining to place")
  else if boardGet s.board squareIndex slotIndex ≠ none then
    .error (.illegalMove "slot is occupied")
  else
    match detect_winner (place_effect s squareIndex slotIndex player) with
    | some w => .ok { place_effect s squareIndex slotIndex player with winner := some w }
    | none => .ok { place_effect s squareIndex slotIndex player with phase := Phase.placementSlide }

/-- The mutation block of `apply_slide`: swap the whole 4-slot rows of the
hole and the slid square (`board[h], board[sq] = board[sq], board[h]`),
move the hole onto the slid square's old index, and lock the square's new
resting place (the previous hole index) against the next slide. -/
def slide_effect (s : GameState) (squareIndex : Nat) : GameState :=
  { s with
    board := (s.board.set s.holeSquareIndex (s.board.getD squareIndex [])).set
      squareIndex (s.board.getD s.holeSquareIndex [])
    holeSquareIndex := squareIndex
    blockedSlideSquareIndex := some s.holeSquareIndex }

/-- `apply_slide`: the guard chain of the source in order, the square swap,
the win check, and the phase-dependent turn progression.  The source reads
`state.phase` and `state.placed` after the swap; the swap touches neither
field, so they are written here as fields of `s`. -/
def apply_slide (s : GameState) (squareIndex : Nat) (player : Player) :
    Except GameError GameState :=
  if s.winner ≠ none ∨ s.drawReason ≠ none then
    .error (.illegalMove "game already finished")
  else if ¬ (s.phase = Phase.placementSlide ∨ s.phase = Phase.movement) then
    .error (.illegalMove "cannot slide in this phase")
  else if player ≠ s.currentPlayer then
    .error (.illegalMove "not your turn")
  else if ¬ squareIndex ≤ 8 then
    .error (.illegalMove "squareIndex out of bounds")
  else if squareIndex = s.holeSquareIndex then
    .error (.illegalMove "cannot slide the hole")
  else if s.blockedSlideSquareIndex = some squareIndex then
    .error (.illegalMove "cannot slide the same square as the previous slide")
  else if ¬ squareIndex ∈ legal_slide_squares s then
    .error (.illegalMove "square is not adjacent to the hole")
  else
    match detect_winner (slide_effect s squareIndex) with
    | some w => .ok { slide_effect s squareIndex with winner := some w }
    | none =>
      if s.phase = Phase.placementSlide then
        if s.placed .R ≥ s.piecesPerPlayer ∧ s.placed .B ≥ s.piecesPerPlayer then
          .ok { slide_effect s squareIndex with
                currentPlayer := other s.currentPlayer, phase := Phase.movement }
        else
          .ok { slide_effect s squareIndex with
                currentPlayer := other s.currentPlayer, phase := Phase.placement }
      else
        .ok (_maybe_set_draw_no_slides
          { slide_effect s squareIndex with currentPlayer := other s.currentPlayer })

/-! ### Notions the specification claims quantify over -/

/-- A 2x2 window with top-left global cell `(r, c)` whose four cells all
hold pieces of owner `p`. -/
def solidWindow (s : GameState) (r c : Nat) (p : Player) : Prop :=
  _global_get s r c = some p ∧ _global_get s r (c + 1) = some p ∧
    _global_get s (r + 1) c = some p ∧ _global_get s (r + 1) (c + 1) = some p

instance (s : GameState) (r c : Nat) (p : Player) : Decidable (solidWindow s r c p) := by
  unfold solidWindow
  infer_instance

/-- Spec-side orthogonal adjacency of two squares of the 3x3 grid
(row = index / 3, column = index % 3): exactly one step up, down, left or
right — never diagonal. -/
def orthAdjacent (a b : Nat) : Prop :=
  a ≤ 8 ∧ b ≤ 8 ∧
    ((a : Int) / 3 - (b : Int) / 3).natAbs + ((a : Int) % 3 - (b : Int) % 3).natAbs = 1

instance (a b : Nat) : Decidable (orthAdjacent a b) := by
  unfold orthAdjacent
  infer_instance

/-- The preconditions of `apply_place`, in the positive form used by the
specification. -/
def placePre (s : GameState) (squareIndex slotIndex : Nat) (player : Player) : Prop :=
  s.winner = none ∧ s.drawReason = none ∧ s.phase = Phase.placement ∧
    player = s.currentPlayer ∧ squareIndex ≤ 8 ∧ slotIndex ≤ 3 ∧
    squareIndex ≠ s.holeSquareIndex ∧ s.placed player < s.piecesPerPlayer ∧
    boardGet s.board squareIndex slotIndex = none

instance (s : GameState) (sq sl : Nat) (p : Player) : Decidable (placePre s sq sl p) := by
  unfold placePre
  infer_instance

/-- The preconditions of `apply_slide`, in the positive form used by the
specification. -/
def slidePre (s : GameState) (squareIndex : Nat) (player : Player) : Prop :=
  s.winner = none ∧ s.drawReason = none ∧
    (s.phase = Phase.placementSlide ∨ s.phase = Phase.movement) ∧
    player = s.currentPlayer ∧ squareIndex ≤ 8 ∧ squareIndex ≠ s.holeSquareIndex ∧
    s.blockedSlideSquareIndex ≠ some squareIndex ∧ squareIndex ∈ legal_slide_squares s

instance (s : GameState) (sq : Nat) (p : Player) : Decidable (slidePre s sq p) := by
  unfold slidePre
  infer_instance

/-- The board shape prescribed by the data model: 9 squares of 4 slots,
hole index in 0..8. -/
def WFState (s : GameState) : Prop :=
  s.board.length = 9 ∧ (∀ row ∈ s.board, row.length = 4) ∧ s.holeSquareIndex ≤ 8

/-- States reachable from a fresh state by legal (accepted) operations. -/
inductive Reachable : GameState → Prop where
  | fresh (n : Int) (s : GameState) : new_state n = .ok s → Reachable s
  | place (s s' : GameState) (squareIndex slotIndex : Nat) (player : Player) :
      Reachable s → apply_place s squareIndex slotIndex player = .ok s' → Reachable s'
  | slide (s s' : GameState) (squareIndex : Nat) (player : Player) :
      Reachable s → apply_slide s squareIndex player = .ok s' → Reachable s'

/-- Number of occupied slots in one square's slot list. -/
def rowFill (row : List (Option Player)) : Nat :=
  row.countP fun o => o.isSome

/-- Total number of occupied slots on the board. -/
def occupiedCount (b : List (List (Option Player))) : Nat :=
  (b.map rowFill).sum

/-! ### A concrete game, played from a fresh 16-piece state.

The trace below builds, by legal moves only, a state in which a single
slide completes a solid 2x2 window for BOTH players at once. -/

/-- The fresh state produced by `new_state 16`. -/
def S0 : GameState :=
  { board := List.replicate 9 [none, none, none, none]
    phase := .placement
    currentPlayer := .R
    placedR := 0
    placedB := 0
    piecesPerPlayer := 16
    holeSquareIndex := 4
    blockedSlideSquareIndex := none
    winner := none
    drawReason := none }

/-- Total extractor used to spell out the states of the concrete game. -/
def okD (e : Except GameError GameState) : GameState :=
  match e with
  | .ok t => t
  | .error _ => S0

def W1 : GameState := okD (apply_place S0 0 2 .R)

def W2 : GameState := okD (apply_slide W1 3 .R)

def W3 : GameState := okD (apply_place W2 7 0 .B)

def W4 : GameState := okD (apply_slide W3 0 .B)

def W5 : GameState := okD (apply_place W4 3 3 .R)

def W6 : GameState := okD (apply_slide W5 1 .R)

def W7 : GameState := okD (apply_place W6 7 1 .B)

def W8 : GameState := okD (apply_slide W7 4 .B)

def W9 : GameState := okD (apply_place W8 5 0 .R)

def W10 : GameState := okD (apply_slide W9 3 .R)

def W11 : GameState := okD (apply_place W10 5 2 .B)

def W12 : GameState := okD (apply_slide W11 0 .B)

def W13 : GameState := okD (apply_place W12 5 1 .R)

def W14 : GameState := okD (apply_slide W13 1 .R)

def W15 : GameState := okD (apply_place W14 5 3 .B)

def W16 : GameState := okD (apply_slide W15 4 .B)

def W17 : GameState := okD (apply_place W16 8 3 .R)

def W18 : GameState := okD (apply_slide W17 5 .R)

/-- A state with the top-left square solid red, used to exercise the
window-scanning query. -/
def SWin : GameState :=
  { board := [some Player.R, some Player.R, some Player.R, some Player.R] ::
      List.replicate 8 [none, none, none, none]
    phase := .placement
    currentPlayer := .B
    placedR := 4
    placedB := 0
    piecesPerPlayer := 16
    holeSquareIndex := 4
    blockedSlideSquareIndex := none
    winner := some Player.R
    drawReason := none }

/-- A movement-phase state used to exercise `apply_slide`. -/
def M0 : GameState :=
  { board := List.replicate 9 [none, none, none, none]
    phase := .movement
    currentPlayer := .R
    placedR := 0
    placedB := 0
    piecesPerPlayer := 1
    holeSquareIndex := 4
    blockedSlideSquareIndex := none
    winner := none
    drawReason := none }

/-! ### List-level helper lemmas -/

theorem getD_set_self {α : Type} (l : List α) (i : Nat) (a d : α) (h : i < l.length) :
    (l.set i a).getD i d = a := by
  simp [List.getD_eq_getElem?_getD, List.getElem?_set_self h]

theorem getD_set_ne {α : Type} (l : List α) (i j : Nat) (a d : α) (h : i ≠ j) :
    (l.set i a).getD j d = l.getD j d := by
  simp [List.getD_eq_getElem?_getD, List.getElem?_set_ne h]

theorem getD_mem {α : Type} (l : List α) (i : Nat) (d : α) (h : i < l.length) :
    l.getD i d ∈ l := by
  rw [List.getD_eq_getElem?_getD, List.getElem?_eq_getElem h]
  exact List.getElem_mem h

/-! ### Helper lemmas about the engine's primitive accessors -/

theorem boardGet_boardSet_ne (b : List (List (Option Player))) (sq sl i j : Nat)
    (v : Option Player) (h : ¬(i = sq ∧ j = sl)) :
    boardGet (boardSet b sq sl v) i j = boardGet b i j := by
  unfold boardGet boardSet
  by_cases hi : i = sq
  · subst hi
    have hj : j ≠ sl := fun hj => h ⟨rfl, hj⟩
    by_cases hlen : i < b.length
    · rw [getD_set_self _ _ _ _ hlen, getD_set_ne _ _ _ _ _ (fun e => hj e.symm)]
    · rw [List.set_eq_of_length_le (Nat.le_of_not_lt hlen)]
  · rw [getD_set_ne _ _ _ _ _ (fun e => hi e.symm)]

theorem boardGet_boardSet_self (b : List (List (Option Player))) (sq sl : Nat)
    (v : Option Player) (hb : sq < b.length) (hr : sl < (b.getD sq []).length) :
    boardGet (boardSet b sq sl v) sq sl = v := by
  unfold boardGet boardSet
  rw [getD_set_self _ _ _ _ hb, getD_set_self _ _ _ _ hr]

theorem boardGet_boardSet_self_or (b : List (List (Option Player))) (sq sl : Nat)
    (v : Option Player) :
    boardGet (boardSet b sq sl v) sq sl = v ∨
      boardGet (boardSet b sq sl v) sq sl = boardGet b sq sl := by
  by_cases hb : sq < b.length
  · by_cases hr : sl < (b.getD sq []).length
    · exact Or.inl (boardGet_boardSet_self b sq sl v hb hr)
    · right
      unfold boardGet boardSet
      rw [List.set_eq_of_length_le (Nat.le_of_not_lt hr)]
      rw [getD_set_self _ _ _ _ hb]
  · right
    unfold boardGet boardSet
    rw [List.set_eq_of_length_le (Nat.le_of_not_lt hb)]

theorem detect_winner_congr {s t : GameState} (h : s.board = t.board) :
    detect_winner s = detect_winner t := by
  unfold detect_winner _global_get
  simp only [h]

theorem legal_slide_squares_congr {s t : GameState}
    (h1 : s.holeSquareIndex = t.holeSquareIndex)
    (h2 : s.blockedSlideSquareIndex = t.blockedSlideSquareIndex) :
    legal_slide_squares s = legal_slide_squares t := by
  unfold legal_slide_squares
  rw [h1, h2]

theorem maybe_draw_fields (s : GameState) :
    (_maybe_set_draw_no_slides s).board = s.board ∧
    (_maybe_set_draw_no_slides s).phase = s.phase ∧
    (_maybe_set_draw_no_slides s).currentPlayer = s.currentPlayer ∧
    (_maybe_set_draw_no_slides s).placedR = s.placedR ∧
    (_maybe_set_draw_no_slides s).placedB = s.placedB ∧
    (_maybe_set_draw_no_slides s).piecesPerPlayer = s.piecesPerPlayer ∧
    (_maybe_set_draw_no_slides s).holeSquareIndex = s.holeSquareIndex ∧
    (_maybe_set_draw_no_slides s).blockedSlideSquareIndex = s.blockedSlideSquareIndex ∧
    (_maybe_set_draw_no_slides s).winner = s.winner := by
  unfold _maybe_set_draw_no_slides
  split_ifs <;> simp

theorem maybe_draw_drawReason (s : GameState) (hph : s.phase = Phase.movement) :
    (_maybe_set_draw_no_slides s).drawReason =
      if legal_slide_squares s = [] then some "noLegalSlides" else s.drawReason := by
  unfold _maybe_set_draw_no_slides
  rw [if_neg (by simp [hph])]
  by_cases h : (legal_slide_squares s).length = 0
  · rw [if_pos h, if_pos (List.length_eq_zero.mp h)]
  · rw [if_neg h, if_neg fun e => h (by simp [e])]

/-! ### Characterisation of the two transitions -/

theorem apply_place_of_pre {s : GameState} {sq sl : Nat} {p : Player}
    (h : placePre s sq sl p) :
    apply_place s sq sl p =
      match detect_winner (place_effect s sq sl p) with
      | some w => .ok { place_effect s sq sl p with winner := some w }
      | none => .ok { place_effect s sq sl p with phase := Phase.placementSlide } := by
  obtain ⟨h1, h2, h3, h4, h5, h6, h7, h8, h9⟩ := h
  unfold apply_place
  rw [if_neg (by simp [h1, h2]), if_neg (by simp [h3]), if_neg (by simp [h4]),
    if_neg (by simp [h5]), if_neg (by simp [h6]), if_neg h7, if_neg (by omega),
    if_neg (by simp [h9])]

theorem apply_place_error_of_not_pre {s : GameState} {sq sl : Nat} {p : Player}
    (h : ¬ placePre s sq sl p) :
    ∃ r, apply_place s sq sl p = .error (.illegalMove r) := by
  unfold apply_place
  by_cases h1 : s.winner ≠ none ∨ s.drawReason ≠ none
  · exact ⟨_, by rw [if_pos h1]⟩
  rw [if_neg h1]
  by_cases h2 : s.phase ≠ Phase.placement
  · exact ⟨_, by rw [if_pos h2]⟩
  rw [if_neg h2]
  by_cases h3 : p ≠ s.currentPlayer
  · exact ⟨_, by rw [if_pos h3]⟩
  rw [if_neg h3]
  by_cases h4 : ¬ sq ≤ 8
  · exact ⟨_, by rw [if_pos h4]⟩
  rw [if_neg h4]
  by_cases h5 : ¬ sl ≤ 3
  · exact ⟨_, by rw [if_pos h5]⟩
  rw [if_neg h5]
  by_cases h6 : sq = s.holeSquareIndex
  · exact ⟨_, by rw [if_pos h6]⟩
  rw [if_neg h6]
  by_cases h7 : s.placed p ≥ s.piecesPerPlayer
  · exact ⟨_, by rw [if_pos h7]⟩
  rw [if_neg h7]
  by_cases h8 : boardGet s.board sq sl ≠ none
  · exact ⟨_, by rw [if_pos h8]⟩
  exfalso
  apply h
  push_neg at h1 h2 h3 h4 h5 h8
  exact ⟨h1.1, h1.2, h2, h3, h4, h5, h6, by omega, h8⟩

theorem apply_place_ok_iff {s : GameState} {sq sl : Nat} {p : Player} :
    (∃ s', apply_place s sq sl p = .ok s') ↔ placePre s sq sl p := by
  constructor
  · rintro ⟨s', hs'⟩
    by_contra hn
    obtain ⟨r, hr⟩ := apply_place_error_of_not_pre hn
    rw [hr] at hs'
    exact absurd hs' (by simp)
  · intro h
    rw [apply_place_of_pre h]
    rcases hd : detect_winner (place_effect s sq sl p) with _ | w <;> simp only [hd] <;>
      exact ⟨_, rfl⟩

theorem apply_place_ok_elim {s s' : GameState} {sq sl : Nat} {p : Player}
    (h : apply_place s sq sl p = .ok s') :
    placePre s sq sl p ∧
      ((∃ w, detect_winner (place_effect s sq sl p) = some w ∧
          s' = { place_effect s sq sl p with winner := some w }) ∨
        (detect_winner (place_effect s sq sl p) = none ∧
          s' = { place_effect s sq sl p with phase := Phase.placementSlide })) := by
  have hpre : placePre s sq sl p := apply_place_ok_iff.mp ⟨s', h⟩
  refine ⟨hpre, ?_⟩
  rw [apply_place_of_pre hpre] at h
  rcases hd : detect_winner (place_effect s sq sl p) with _ | w <;> simp only [hd] at h
  · exact Or.inr ⟨rfl, (Except.ok.inj h).symm⟩
  · exact Or.inl ⟨w, rfl, (Except.ok.inj h).symm⟩

theorem apply_slide_of_pre {s : GameState} {sq : Nat} {p : Player}
    (h : slidePre s sq p) :
    apply_slide s sq p =
      match detect_winner (slide_effect s sq) with
      | some w => .ok { slide_effect s sq with winner := some w }
      | none =>
        if s.phase = Phase.placementSlide then
          if s.placed .R ≥ s.piecesPerPlayer ∧ s.placed .B ≥ s.piecesPerPlayer then
            .ok { slide_effect s sq with
                  currentPlayer := other s.currentPlayer, phase := Phase.movement }
          else
            .ok { slide_effect s sq with
                  currentPlayer := other s.currentPlayer, phase := Phase.placement }
        else
          .ok (_maybe_set_draw_no_slides
            { slide_effect s sq with currentPlayer := other s.currentPlayer }) := by
  obtain ⟨h1, h2, h3, h4, h5, h6, h7, h8⟩ := h
  unfold apply_slide
  rw [if_neg (by simp [h1, h2]), if_neg (not_not_intro h3), if_neg (by simp [h4]),
    if_neg (by simp [h5]), if_neg h6, if_neg h7, if_neg (not_not_intro h8)]

theorem apply_slide_error_of_not_pre {s : GameState} {sq : Nat} {p : Player}
    (h : ¬ slidePre s sq p) :
    ∃ r, apply_slide s sq p = .error (.illegalMove r) := by
  unfold apply_slide
  by_cases h1 : s.winner ≠ none ∨ s.drawReason ≠ none
  · exact ⟨_, by rw [if_pos h1]⟩
  rw [if_neg h1]
  by_cases h2 : ¬ (s.phase = Phase.placementSlide ∨ s.phase = Phase.movement)
  · exact ⟨_, by rw [if_pos h2]⟩
  rw [if_neg h2]
  by_cases h3 : p ≠ s.currentPlayer
  · exact ⟨_, by rw [if_pos h3]⟩
  rw [if_neg h3]
  by_cases h4 : ¬ sq ≤ 8
  · exact ⟨_, by rw [if_pos h4]⟩
  rw [if_neg h4]
  by_cases h5 : sq = s.holeSquareIndex
  · exact ⟨_, by rw [if_pos h5]⟩
  rw [if_neg h5]
  by_cases h6 : s.blockedSlideSquareIndex = some sq
  · exact ⟨_, by rw [if_pos h6]⟩
  rw [if_neg h6]
  by_cases h7 : ¬ sq ∈ legal_slide_squares s
  · exact ⟨_, by rw [if_pos h7]⟩
  exfalso
  apply h
  push_neg at h1 h2 h3 h4 h7
  exact ⟨h1.1, h1.2, h2, h3, h4, h5, h6, h7⟩

theorem apply_slide_ok_iff {s : GameState} {sq : Nat} {p : Player} :
    (∃ s', apply_slide s sq p = .ok s') ↔ slidePre s sq p := by
  constructor
  · rintro ⟨s', hs'⟩
    by_contra hn
    obtain ⟨r, hr⟩ := apply_slide_error_of_not_pre hn
    rw [hr] at hs'
    exact absurd hs' (by simp)
  · intro h
    rw [apply_slide_of_pre h]
    rcases hd : detect_winner (slide_effect s sq) with _ | w <;> simp only [hd]
    · by_cases hph : s.phase = Phase.placementSlide
      · rw [if_pos hph]
        by_cases hcap : s.placed .R ≥ s.piecesPerPlayer ∧ s.placed .B ≥ s.piecesPerPlayer
        · rw [if_pos hcap]
          exact ⟨_, rfl⟩
        · rw [if_neg hcap]
          exact ⟨_, rfl⟩
      · rw [if_neg hph]
        exact ⟨_, rfl⟩
    · exact ⟨_, rfl⟩

theorem apply_slide_ok_elim {s s' : GameState} {sq : Nat} {p : Player}
    (h : apply_slide s sq p = .ok s') :
    slidePre s sq p ∧
      ((∃ w, detect_winner (slide_effect s sq) = some w ∧
          s' = { slide_effect s sq with winner := some w }) ∨
        (detect_winner (slide_effect s sq) = none ∧ s.phase = Phase.placementSlide ∧
          s' = { slide_effect s sq with
                 currentPlayer := other s.currentPlayer,
                 phase := if s.placed .R ≥ s.piecesPerPlayer ∧ s.placed .B ≥ s.piecesPerPlayer
                   then Phase.movement else Phase.placement }) ∨
        (detect_winner (slide_effect s sq) = none ∧ s.phase = Phase.movement ∧
          s' = _maybe_set_draw_no_slides
            { slide_effect s sq with currentPlayer := other s.currentPlayer })) := by
  have hpre : slidePre s sq p := apply_slide_ok_iff.mp ⟨s', h⟩
  refine ⟨hpre, ?_⟩
  rw [apply_slide_of_pre hpre] at h
  rcases hd : detect_winner (slide_effect s sq) with _ | w <;> simp only [hd] at h
  · by_cases hph : s.phase = Phase.placementSlide
    · rw [if_pos hph] at h
      refine Or.inr (Or.inl ⟨rfl, hph, ?_⟩)
      by_cases hcap : s.placed .R ≥ s.piecesPerPlayer ∧ s.placed .B ≥ s.piecesPerPlayer
      · rw [if_pos hcap] at h
        rw [if_pos hcap]
        exact (Except.ok.inj h).symm
      · rw [if_neg hcap] at h
        rw [if_neg hcap]
        exact (Except.ok.inj h).symm
    · rw [if_neg hph] at h
      exact Or.inr (Or.inr ⟨rfl, hpre.2.2.1.resolve_left hph, (Except.ok.inj h).symm⟩)
  · exact Or.inl ⟨w, rfl, (Except.ok.inj h).symm⟩

/-! ### Window scanning lemmas -/

theorem solidWindow_of_detect {s : GameState} {p : Player} (h : detect_winner s = some p) :
    ∃ r c, r ≤ 4 ∧ c ≤ 4 ∧ solidWindow s r c p := by
  unfold detect_winner at h
  obtain ⟨r, hr, hr2⟩ := List.exists_of_findSome?_eq_some h
  obtain ⟨c, hc, hc2⟩ := List.exists_of_findSome?_eq_some hr2
  refine ⟨r, c, by have := List.mem_range.mp hr; omega, by have := List.mem_range.mp hc; omega, ?_⟩
  rcases hg : _global_get s r c with _ | a
  · simp only [hg] at hc2
    exact absurd hc2 (by simp)
  · simp only [hg] at hc2
    by_cases hcond : _global_get s r (c + 1) = some a ∧ _global_get s (r + 1) c = some a ∧
        _global_get s (r + 1) (c + 1) = some a
    · have hap : a = p := by
        rw [if_pos hcond] at hc2
        exact Option.some.inj hc2
      subst hap
      exact ⟨hg, hcond.1, hcond.2.1, hcond.2.2⟩
    · rw [if_neg hcond] at hc2
      exact absurd hc2 (by simp)

theorem detect_ne_none_of_solidWindow {s : GameState} {p : Player} {r c : Nat}
    (hr : r ≤ 4) (hc : c ≤ 4) (h : solidWindow s r c p) : detect_winner s ≠ none := by
  intro hn
  unfold detect_winner at hn
  rw [List.findSome?_eq_none_iff] at hn
  have h1 := hn r (List.mem_range.mpr (by omega))
  rw [List.findSome?_eq_none_iff] at h1
  have h2 := h1 c (List.mem_range.mpr (by omega))
  obtain ⟨ha, hb, hd, he⟩ := h
  simp only [ha] at h2
  rw [if_pos ⟨hb, hd, he⟩] at h2
  exact absurd h2 (by simp)

theorem no_solidWindow_of_detect_none {s : GameState} (h : detect_winner s = none) :
    ∀ p r c, r ≤ 4 → c ≤ 4 → ¬ solidWindow s r c p :=
  fun _ _ _ hr hc hs => detect_ne_none_of_solidWindow hr hc hs h

/-! ### The legal-slide neighbourhood -/

theorem mem_slide_neighbors {h : Nat} (hh : h ≤ 8) (i : Nat) :
    i ∈ slide_neighbors h ↔ orthAdjacent i h := by
  have e0 : slide_neighbors 0 = [3, 1] := by decide
  have e1 : slide_neighbors 1 = [4, 0, 2] := by decide
  have e2 : slide_neighbors 2 = [5, 1] := by decide
  have e3 : slide_neighbors 3 = [0, 6, 4] := by decide
  have e4 : slide_neighbors 4 = [1, 7, 3, 5] := by decide
  have e5 : slide_neighbors 5 = [2, 8, 4] := by decide
  have e6 : slide_neighbors 6 = [3, 7] := by decide
  have e7 : slide_neighbors 7 = [4, 6, 8] := by decide
  have e8 : slide_neighbors 8 = [5, 7] := by decide
  unfold orthAdjacent
  interval_cases h <;>
    simp only [e0, e1, e2, e3, e4, e5, e6, e7, e8, List.mem_cons, List.not_mem_nil, or_false] <;>
    omega

theorem slide_neighbors_two {h : Nat} (hh : h ≤ 8) :
    ∃ x y rest, slide_neighbors h = x :: y :: rest ∧ x ≠ y := by
  interval_cases h
  · exact ⟨3, 1, [], by decide, by decide⟩
  · exact ⟨4, 0, [2], by decide, by decide⟩
  · exact ⟨5, 1, [], by decide, by decide⟩
  · exact ⟨0, 6, [4], by decide, by decide⟩
  · exact ⟨1, 7, [3, 5], by decide, by decide⟩
  · exact ⟨2, 8, [4], by decide, by decide⟩
  · exact ⟨3, 7, [], by decide, by decide⟩
  · exact ⟨4, 6, [8], by decide, by decide⟩
  · exact ⟨5, 7, [], by decide, by decide⟩

theorem filter_ne_two {x y : Nat} (rest : List Nat) (hxy : x ≠ y) (b : Nat) :
    (x :: y :: rest).filter (fun i => i ≠ b) ≠ [] := by
  intro hnil
  rw [List.filter_eq_nil_iff] at hnil
  have hx := hnil x (by simp)
  have hy := hnil y (by simp)
  simp at hx hy
  exact hxy (hx.trans hy.symm)

/-- With the hole anywhere on the 3x3 grid, at least one legal slide exists:
the hole has at least two orthogonal neighbours and the anti-backtrack
filter removes at most one of them. -/
theorem legal_slide_squares_ne_nil {s : GameState} (hh : s.holeSquareIndex ≤ 8) :
    legal_slide_squares s ≠ [] := by
  obtain ⟨x, y, rest, he, hxy⟩ := slide_neighbors_two hh
  unfold legal_slide_squares
  rcases hb : s.blockedSlideSquareIndex with _ | b <;> simp only [hb, he]
  · simp
  · exact filter_ne_two rest hxy b

/-! ### Invariants of reachable states -/

theorem boardSet_wf {b : List (List (Option Player))} (hlen : b.length = 9)
    (hrows : ∀ row ∈ b, row.length = 4) (sq sl : Nat) (hsq : sq ≤ 8) (v : Option Player) :
    (boardSet b sq sl v).length = 9 ∧ ∀ row ∈ boardSet b sq sl v, row.length = 4 := by
  unfold boardSet
  constructor
  · rw [List.length_set, hlen]
  · intro row hrow
    rcases List.mem_or_eq_of_mem_set hrow with hmem | heq
    · exact hrows row hmem
    · subst heq
      rw [List.length_set]
      exact hrows _ (getD_mem b sq [] (by omega))

theorem swap_wf {b : List (List (Option Player))} (hlen : b.length = 9)
    (hrows : ∀ row ∈ b, row.length = 4) (h sq : Nat) (hh : h ≤ 8) (hsq : sq ≤ 8) :
    ((b.set h (b.getD sq [])).set sq (b.getD h [])).length = 9 ∧
      ∀ row ∈ (b.set h (b.getD sq [])).set sq (b.getD h []), row.length = 4 := by
  constructor
  · simp [hlen]
  · intro row hrow
    rcases List.mem_or_eq_of_mem_set hrow with hrow2 | heq
    · rcases List.mem_or_eq_of_mem_set hrow2 with hmem | heq
      · exact hrows row hmem
      · subst heq
        exact hrows _ (getD_mem b sq [] (by omega))
    · subst heq
      exact hrows _ (getD_mem b h [] (by omega))

/-- Every reachable state has the 9x4 board shape with the hole in 0..8. -/
theorem reachable_wf {s : GameState} (h : Reachable s) : WFState s := by
  induction h with
  | fresh n s hn =>
    unfold new_state at hn
    by_cases hle : n ≤ 0
    · rw [if_pos hle] at hn
      exact absurd hn (by simp)
    · rw [if_neg hle] at hn
      obtain rfl := Except.ok.inj hn
      refine ⟨by simp, ?_, by simp⟩
      intro row hrow
      rw [List.eq_of_mem_replicate hrow]
      rfl
  | place s s' sq sl p hreach hok ih =>
    obtain ⟨hpre, hcases⟩ := apply_place_ok_elim hok
    obtain ⟨hlen, hrows, hhole⟩ := ih
    have hb := boardSet_wf hlen hrows sq sl hpre.2.2.2.2.1 (some p)
    have hboard : s'.board = boardSet s.board sq sl (some p) := by
      rcases hcases with ⟨w, hw, rfl⟩ | ⟨hd, rfl⟩ <;> simp [place_effect]
    have hhole2 : s'.holeSquareIndex = s.holeSquareIndex := by
      rcases hcases with ⟨w, hw, rfl⟩ | ⟨hd, rfl⟩ <;> simp [place_effect]
    exact ⟨hboard ▸ hb.1, hboard ▸ hb.2, hhole2 ▸ hhole⟩
  | slide s s' sq p hreach hok ih =>
    obtain ⟨hpre, hcases⟩ := apply_slide_ok_elim hok
    obtain ⟨hlen, hrows, hhole⟩ := ih
    have hsq8 : sq ≤ 8 := hpre.2.2.2.2.1
    have hsw := swap_wf hlen hrows s.holeSquareIndex sq hhole hsq8
    have hboard : s'.board = (s.board.set s.holeSquareIndex (s.board.getD sq [])).set sq
        (s.board.getD s.holeSquareIndex []) := by
      rcases hcases with ⟨w, hw, rfl⟩ | ⟨hd, hph, rfl⟩ | ⟨hd, hph, rfl⟩ <;>
        simp [slide_effect, (maybe_draw_fields _).1]
    have hhole2 : s'.holeSquareIndex = sq := by
      rcases hcases with ⟨w, hw, rfl⟩ | ⟨hd, hph, rfl⟩ | ⟨hd, hph, rfl⟩ <;>
        simp [slide_effect, (maybe_draw_fields _).2.2.2.2.2.2.1]
    exact ⟨hboard ▸ hsw.1, hboard ▸ hsw.2, hhole2 ▸ hsq8⟩

/-- In a reachable state whose `winner` field is unset, the board holds no
winning window at all: `detect_winner` is consulted after every mutation
and would have frozen the game otherwise. -/
theorem reachable_detect_none {s : GameState} (h : Reachable s) (hw : s.winner = none) :
    detect_winner s = none := by
  induction h with
  | fresh n s hn =>
    unfold new_state at hn
    by_cases hle : n ≤ 0
    · rw [if_pos hle] at hn
      exact absurd hn (by simp)
    · rw [if_neg hle] at hn
      obtain rfl := Except.ok.inj hn
      rfl
  | place s s' sq sl p hreach hok ih =>
    obtain ⟨hpre, hcases⟩ := apply_place_ok_elim hok
    rcases hcases with ⟨w, hw2, rfl⟩ | ⟨hd, rfl⟩
    · simp at hw
    · exact (detect_winner_congr (t := place_effect s sq sl p) rfl).trans hd
  | slide s s' sq p hreach hok ih =>
    obtain ⟨hpre, hcases⟩ := apply_slide_ok_elim hok
    rcases hcases with ⟨w, hw2, rfl⟩ | ⟨hd, hph, rfl⟩ | ⟨hd, hph, rfl⟩
    · simp at hw
    · exact (detect_winner_congr (t := slide_effect s sq) rfl).trans hd
    · refine (detect_winner_congr (t := slide_effect s sq) ?_).trans hd
      exact (maybe_draw_fields _).1

/-! ### Counting pieces -/

theorem occ_set (b : List (List (Option Player))) (i : Nat) (r : List (Option Player))
    (h : i < b.length) :
    occupiedCount (b.set i r) + rowFill (b.getD i []) = occupiedCount b + rowFill r := by
  induction b generalizing i with
  | nil => simp at h
  | cons x xs ih =>
    cases i with
    | zero =>
      simp [occupiedCount]
      omega
    | succ n =>
      have hn : n < xs.length := by simpa using h
      have hrec := ih n hn
      simp only [List.set_cons_succ, occupiedCount, List.map_cons, List.sum_cons,
        List.getD_cons_succ] at hrec ⊢
      omega

theorem rowFill_set (row : List (Option Player)) (j : Nat) (p : Player)
    (hj : j < row.length) (he : row.getD j none = none) :
    rowFill (row.set j (some p)) = rowFill row + 1 := by
  induction row generalizing j with
  | nil => simp at hj
  | cons x xs ih =>
    cases j with
    | zero =>
      simp only [List.getD_cons_zero] at he
      subst he
      simp [rowFill, List.countP_cons]
    | succ n =>
      have hn : n < xs.length := by simpa using hj
      have he2 : xs.getD n none = none := by simpa using he
      have hrec := ih n hn he2
      simp only [List.set_cons_succ, rowFill, List.countP_cons] at hrec ⊢
      omega

/-- Placed-piece accounting across one placement. -/
theorem occupiedCount_boardSet {b : List (List (Option Player))} {sq sl : Nat} {p : Player}
    (hsq : sq < b.length) (hsl : sl < (b.getD sq []).length)
    (he : boardGet b sq sl = none) :
    occupiedCount (boardSet b sq sl (some p)) = occupiedCount b + 1 := by
  unfold boardGet at he
  have h1 := occ_set b sq ((b.getD sq []).set sl (some p)) hsq
  have h2 := rowFill_set (b.getD sq []) sl p hsl he
  unfold boardSet
  omega

/-- A slide permutes whole squares, so the piece count is untouched. -/
theorem occupiedCount_swap {b : List (List (Option Player))} {h sq : Nat}
    (hh : h < b.length) (hsq : sq < b.length) (hne : h ≠ sq) :
    occupiedCount ((b.set h (b.getD sq [])).set sq (b.getD h [])) = occupiedCount b := by
  have e1 := occ_set b h (b.getD sq []) hh
  have e2 := occ_set (b.set h (b.getD sq [])) sq (b.getD h []) (by simpa using hsq)
  have e3 : (b.set h (b.getD sq [])).getD sq [] = b.getD sq [] :=
    getD_set_ne _ _ _ _ _ hne
  rw [e3] at e2
  omega

/-- C9's invariant: in every reachable state the two placement counters sum
to the number of occupied slots. -/
theorem reachable_count {s : GameState} (h : Reachable s) :
    s.placedR + s.placedB = occupiedCount s.board := by
  induction h with
  | fresh n s hn =>
    unfold new_state at hn
    by_cases hle : n ≤ 0
    · rw [if_pos hle] at hn
      exact absurd hn (by simp)
    · rw [if_neg hle] at hn
      obtain rfl := Except.ok.inj hn
      rfl
  | place s s' sq sl p hreach hok ih =>
    obtain ⟨hlen, hrows, hhole⟩ := reachable_wf hreach
    obtain ⟨hpre, hcases⟩ := apply_place_ok_elim hok
    obtain ⟨hw, hd, hph, hcur, hsq8, hsl3, hnh, hcap, hempty⟩ := hpre
    have hsq : sq < s.board.length := by omega
    have hsl : sl < (s.board.getD sq []).length := by
      rw [hrows _ (getD_mem s.board sq [] hsq)]
      omega
    have hocc := occupiedCount_boardSet (p := p) hsq hsl hempty
    have hfields : s'.board = boardSet s.board sq sl (some p) ∧
        s'.placedR = (if p = .R then s.placedR + 1 else s.placedR) ∧
        s'.placedB = (if p = .B then s.placedB + 1 else s.placedB) := by
      rcases hcases with ⟨w, hw2, rfl⟩ | ⟨hd2, rfl⟩ <;> simp [place_effect]
    obtain ⟨hb, hr, hbb⟩ := hfields
    rw [hb, hr, hbb, hocc]
    cases p <;> simp <;> omega
  | slide s s' sq p hreach hok ih =>
    obtain ⟨hlen, hrows, hhole⟩ := reachable_wf hreach
    obtain ⟨hpre, hcases⟩ := apply_slide_ok_elim hok
    have hsq8 : sq ≤ 8 := hpre.2.2.2.2.1
    have hnh : sq ≠ s.holeSquareIndex := hpre.2.2.2.2.2.1
    have hocc := @occupiedCount_swap s.board s.holeSquareIndex sq
      (by omega) (by omega) (fun e => hnh e.symm)
    have hfields : s'.board = (s.board.set s.holeSquareIndex (s.board.getD sq [])).set sq
          (s.board.getD s.holeSquareIndex []) ∧
        s'.placedR = s.placedR ∧ s'.placedB = s.placedB := by
      rcases hcases with ⟨w, hw2, rfl⟩ | ⟨hd2, hph, rfl⟩ | ⟨hd2, hph, rfl⟩ <;>
        refine ⟨?_, ?_, ?_⟩ <;>
        simp [slide_effect, (maybe_draw_fields _).1, (maybe_draw_fields _).2.2.2.1,
          (maybe_draw_fields _).2.2.2.2.1]
    obtain ⟨hb, hr, hbb⟩ := hfields
    rw [hb, hr, hbb, hocc]
    exact ih

/-- C10's invariant: no reachable state carries a draw reason (the draw
branch can never fire, because after a slide the hole is on the board and
its neighbour list minus the single blocked square is never empty). -/
theorem reachable_draw_none {s : GameState} (h : Reachable s) : s.drawReason = none := by
  induction h with
  | fresh n s hn =>
    unfold new_state at hn
    by_cases hle : n ≤ 0
    · rw [if_pos hle] at hn
      exact absurd hn (by simp)
    · rw [if_neg hle] at hn
      obtain rfl := Except.ok.inj hn
      rfl
  | place s s' sq sl p hreach hok ih =>
    obtain ⟨hpre, hcases⟩ := apply_place_ok_elim hok
    rcases hcases with ⟨w, hw2, rfl⟩ | ⟨hd2, rfl⟩ <;> simpa [place_effect] using ih
  | slide s s' sq p hreach hok ih =>
    obtain ⟨hpre, hcases⟩ := apply_slide_ok_elim hok
    have hsq8 : sq ≤ 8 := hpre.2.2.2.2.1
    rcases hcases with ⟨w, hw2, rfl⟩ | ⟨hd2, hph, rfl⟩ | ⟨hd2, hph, rfl⟩
    · simpa [slide_effect] using ih
    · simpa [slide_effect] using ih
    · have hphX : ({ slide_effect s sq with
          currentPlayer := other s.currentPlayer } : GameState).phase = Phase.movement := by
        simpa [slide_effect] using hph
      rw [maybe_draw_drawReason _ hphX]
      rw [if_neg (legal_slide_squares_ne_nil (by simpa [slide_effect] using hsq8))]
      simpa [slide_effect] using ih

theorem reachable_W18 : Reachable W18 := by
  have h0 : Reachable S0 := Reachable.fresh 16 S0 (by rfl)
  have h1 : Reachable W1 := Reachable.place S0 W1 0 2 .R h0 (by rfl)
  have h2 : Reachable W2 := Reachable.slide W1 W2 3 .R h1 (by rfl)
  have h3 : Reachable W3 := Reachable.place W2 W3 7 0 .B h2 (by rfl)
  have h4 : Reachable W4 := Reachable.slide W3 W4 0 .B h3 (by rfl)
  have h5 : Reachable W5 := Reachable.place W4 W5 3 3 .R h4 (by rfl)
  have h6 : Reachable W6 := Reachable.slide W5 W6 1 .R h5 (by rfl)
  have h7 : Reachable W7 := Reachable.place W6 W7 7 1 .B h6 (by rfl)
  have h8 : Reachable W8 := Reachable.slide W7 W8 4 .B h7 (by rfl)
  have h9 : Reachable W9 := Reachable.place W8 W9 5 0 .R h8 (by rfl)
  have h10 : Reachable W10 := Reachable.slide W9 W10 3 .R h9 (by rfl)
  have h11 : Reachable W11 := Reachable.place W10 W11 5 2 .B h10 (by rfl)
  have h12 : Reachable W12 := Reachable.slide W11 W12 0 .B h11 (by rfl)
  have h13 : Reachable W13 := Reachable.place W12 W13 5 1 .R h12 (by rfl)
  have h14 : Reachable W14 := Reachable.slide W13 W14 1 .R h13 (by rfl)
  have h15 : Reachable W15 := Reachable.place W14 W15 5 3 .B h14 (by rfl)
  have h16 : Reachable W16 := Reachable.slide W15 W16 4 .B h15 (by rfl)
  have h17 : Reachable W17 := Reachable.place W16 W17 8 3 .R h16 (by rfl)
  exact Reachable.slide W17 W18 5 .R h17 (by rfl)

/-! ### Ownership of windows created by a placement -/

theorem solidWindow_congr {s t : GameState} (h : s.board = t.board) {r c : Nat} {p : Player} :
    solidWindow s r c p ↔ solidWindow t r c p := by
  unfold solidWindow _global_get
  rw [h]

/-- A cell of the post-placement board either kept its old value or is the
freshly written cell and holds the placing player. -/
theorem place_cell_analysis {s : GameState} {sq sl : Nat} {p q : Player} {r c : Nat}
    (hempty : boardGet s.board sq sl = none)
    (hcell : _global_get (place_effect s sq sl p) r c = some q) :
    _global_get s r c = some q ∨ q = p := by
  unfold _global_get at hcell ⊢
  have hb : (place_effect s sq sl p).board = boardSet s.board sq sl (some p) := rfl
  rw [hb] at hcell
  by_cases k : (r / 2) * 3 + c / 2 = sq ∧ (r % 2) * 2 + c % 2 = sl
  · right
    rw [k.1, k.2] at hcell
    rcases boardGet_boardSet_self_or s.board sq sl (some p) with he | he
    · rw [he] at hcell
      exact (Option.some.inj hcell).symm
    · rw [he, hempty] at hcell
      exact absurd hcell (by simp)
  · left
    rw [boardGet_boardSet_ne _ _ _ _ _ _ k] at hcell
    exact hcell

/-- If the pre-placement board has no solid window, every solid window of
the post-placement board is owned by the placing player. -/
theorem place_effect_window_owner {s : GameState} {sq sl : Nat} {p : Player}
    (hdet : detect_winner s = none) (hempty : boardGet s.board sq sl = none)
    {q : Player} {r c : Nat} (hr : r ≤ 4) (hc : c ≤ 4)
    (hs : solidWindow (place_effect s sq sl p) r c q) : q = p := by
  have hnos := no_solidWindow_of_detect_none hdet
  obtain ⟨h1, h2, h3, h4⟩ := hs
  rcases place_cell_analysis hempty h1 with u1 | hqp
  · rcases place_cell_analysis hempty h2 with u2 | hqp
    · rcases place_cell_analysis hempty h3 with u3 | hqp
      · rcases place_cell_analysis hempty h4 with u4 | hqp
        · exact absurd ⟨u1, u2, u3, u4⟩ (hnos q r c hr hc)
        · exact hqp
      · exact hqp
    · exact hqp
  · exact hqp

/-- Whatever the rest of the state looks like, asking `apply_slide` to move
the currently blocked square is rejected: every guard before the
anti-backtrack check is itself an `IllegalMove`, and the anti-backtrack
guard fires otherwise. -/
theorem apply_slide_blocked_errors {t : GameState} {j : Nat} (q : Player)
    (hb : t.blockedSlideSquareIndex = some j) :
    ∃ r, apply_slide t j q = .error (.illegalMove r) := by
  unfold apply_slide
  by_cases h1 : t.winner ≠ none ∨ t.drawReason ≠ none
  · exact ⟨_, by rw [if_pos h1]⟩
  rw [if_neg h1]
  by_cases h2 : ¬ (t.phase = Phase.placementSlide ∨ t.phase = Phase.movement)
  · exact ⟨_, by rw [if_pos h2]⟩
  rw [if_neg h2]
  by_cases h3 : q ≠ t.currentPlayer
  · exact ⟨_, by rw [if_pos h3]⟩
  rw [if_neg h3]
  by_cases h4 : ¬ j ≤ 8
  · exact ⟨_, by rw [if_pos h4]⟩
  rw [if_neg h4]
  by_cases h5 : j = t.holeSquareIndex
  · exact ⟨_, by rw [if_pos h5]⟩
  rw [if_neg h5]
  rw [if_pos hb]
  exact ⟨_, rfl⟩

theorem boardGet_replicate_empty (i j : Nat) :
    boardGet (List.replicate 9 [none, none, none, none]) i j = none := by
  unfold boardGet
  have hrow : (List.replicate 9 ([none, none, none, none] : List (Option Player))).getD i [] =
      if i < 9 then [none, none, none, none] else [] := by
    rw [List.getD_eq_getElem?_getD, List.getElem?_replicate]
    by_cases h : i < 9 <;> simp [h]
  rw [hrow]
  by_cases h : i < 9 <;> simp only [if_pos, if_neg, h, if_true, if_false] <;>
    rcases j with _ | _ | _ | _ | j <;> rfl

/-! ### Claim theorems -/

/-- C3: `detect_winner` reports an owner exactly when some 2x2 window of
the 6x6 overlay (top-left over rows 0..4, columns 0..4) is solidly owned;
the reported owner always has such a window; and a placement into a live
(no-window) position that completes such a window for the placing player
sets `winner` to that player. -/
theorem detect_winner_spec (s : GameState) :
    (∀ p, detect_winner s = some p → ∃ r c, r ≤ 4 ∧ c ≤ 4 ∧ solidWindow s r c p) ∧
    ((∃ p r c, r ≤ 4 ∧ c ≤ 4 ∧ solidWindow s r c p) → detect_winner s ≠ none) ∧
    (∀ sq sl p s', detect_winner s = none → apply_place s sq sl p = .ok s' →
      (∃ r c, r ≤ 4 ∧ c ≤ 4 ∧ solidWindow s' r c p) → s'.winner = some p) := by
  refine ⟨fun p h => solidWindow_of_detect h, ?_, ?_⟩
  · rintro ⟨p, r, c, hr, hc, hs⟩
    exact detect_ne_none_of_solidWindow hr hc hs
  · rintro sq sl p s' hdet hok ⟨r, c, hr, hc, hs⟩
    obtain ⟨hpre, hcases⟩ := apply_place_ok_elim hok
    have hempty := hpre.2.2.2.2.2.2.2.2
    rcases hcases with ⟨w, hw2, rfl⟩ | ⟨hd2, rfl⟩
    · obtain ⟨r2, c2, hr2, hc2, hw3⟩ := solidWindow_of_detect hw2
      have hwp : w = p := place_effect_window_owner hdet hempty hr2 hc2 hw3
      subst hwp
      rfl
    · have hdet2 : detect_winner
          ({ place_effect s sq sl p with phase := Phase.placementSlide }) = none :=
        (detect_winner_congr (t := place_effect s sq sl p) rfl).trans hd2
      exact absurd hdet2 (detect_ne_none_of_solidWindow hr hc hs)

theorem detect_winner_spec_witness : detect_winner SWin ≠ none :=
  (detect_winner_spec SWin).2.1 ⟨Player.R, 0, 0, by decide, by decide, by decide⟩

/-- C4: `legal_slide_squares` is exactly the set of orthogonal neighbours
of the hole on the 3x3 grid with the blocked square removed, and never
contains the hole itself.  (It is a pure query by construction.) -/
theorem legal_slide_squares_spec (s : GameState) (hh : s.holeSquareIndex ≤ 8) :
    (∀ i, i ∈ legal_slide_squares s ↔
      orthAdjacent i s.holeSquareIndex ∧ s.blockedSlideSquareIndex ≠ some i) ∧
    s.holeSquareIndex ∉ legal_slide_squares s := by
  have hch : ∀ i, i ∈ legal_slide_squares s ↔
      orthAdjacent i s.holeSquareIndex ∧ s.blockedSlideSquareIndex ≠ some i := by
    intro i
    unfold legal_slide_squares
    rcases hb : s.blockedSlideSquareIndex with _ | b <;> simp only [hb]
    · rw [mem_slide_neighbors hh]
      simp
    · rw [List.mem_filter]
      simp only [mem_slide_neighbors hh, decide_eq_true_eq, ne_eq, Option.some.injEq]
      constructor
      · rintro ⟨ha, hne⟩
        exact ⟨ha, fun e => hne e.symm⟩
      · rintro ⟨ha, hne⟩
        exact ⟨ha, fun e => hne e.symm⟩
  refine ⟨hch, fun hmem => ?_⟩
  have := ((hch s.holeSquareIndex).mp hmem).1
  unfold orthAdjacent at this
  omega

theorem legal_slide_squares_spec_witness :
    (1 ∈ legal_slide_squares S0 ↔
      orthAdjacent 1 S0.holeSquareIndex ∧ S0.blockedSlideSquareIndex ≠ some 1) ∧
    S0.holeSquareIndex ∉ legal_slide_squares S0 := by
  have h := legal_slide_squares_spec S0 (by decide)
  exact ⟨h.1 1, h.2⟩

/-- C5: after every successful slide the previous hole index is recorded as
the blocked square, and an immediate attempt (by the player then to move)
to slide that square back is rejected as an illegal move; the functional
embedding returns the error without touching the state. -/
theorem anti_backtrack_spec (s : GameState) (sq : Nat) (p : Player) (s' : GameState)
    (hok : apply_slide s sq p = .ok s') :
    s'.blockedSlideSquareIndex = some s.holeSquareIndex ∧
      ∃ r, apply_slide s' s.holeSquareIndex s'.currentPlayer = .error (.illegalMove r) := by
  obtain ⟨hpre, hcases⟩ := apply_slide_ok_elim hok
  have hblocked : s'.blockedSlideSquareIndex = some s.holeSquareIndex := by
    rcases hcases with ⟨w, hw, rfl⟩ | ⟨hd, hph, rfl⟩ | ⟨hd, hph, rfl⟩ <;>
      simp [slide_effect, (maybe_draw_fields _).2.2.2.2.2.2.2.1]
  exact ⟨hblocked, apply_slide_blocked_errors s'.currentPlayer hblocked⟩

theorem anti_backtrack_spec_witness :
    W2.blockedSlideSquareIndex = some W1.holeSquareIndex ∧
      ∃ r, apply_slide W2 W1.holeSquareIndex W2.currentPlayer = .error (.illegalMove r) :=
  anti_backtrack_spec W1 3 Player.R W2 (by rfl)

/-- C6: each transition succeeds exactly when its preconditions all hold,
and every rejection - including calls on a finished game - is the single
`IllegalMove` error kind with a reason string; in the functional embedding
a rejection returns the untouched state, and in the source every `raise`
precedes the first mutation. -/
theorem illegal_move_spec (s : GameState) (sq sl : Nat) (p : Player) :
    ((∃ s', apply_place s sq sl p = .ok s') ↔ placePre s sq sl p) ∧
    (¬ placePre s sq sl p → ∃ r, apply_place s sq sl p = .error (.illegalMove r)) ∧
    ((∃ s', apply_slide s sq p = .ok s') ↔ slidePre s sq p) ∧
    (¬ slidePre s sq p → ∃ r, apply_slide s sq p = .error (.illegalMove r)) :=
  ⟨apply_place_ok_iff, fun h => apply_place_error_of_not_pre h,
    apply_slide_ok_iff, fun h => apply_slide_error_of_not_pre h⟩

theorem illegal_move_spec_witness :
    ∃ r, apply_place S0 9 0 Player.R = .error (.illegalMove r) :=
  (illegal_move_spec S0 9 0 Player.R).2.1 (by decide)

/-- C7: a fresh state with positive capacity has hole 4, phase placement,
player R, zero counters, an empty board, no blocked square, no winner, no
draw, and legal-slide set {1, 3, 5, 7}; a non-positive capacity is rejected
with a `ValueError`, never with the in-play `IllegalMove`. -/
theorem new_state_spec (n : Int) :
    (n ≤ 0 → new_state n = .error (.valueError "piecesPerPlayer must be positive") ∧
      ∀ r, new_state n ≠ .error (.illegalMove r)) ∧
    (0 < n → ∃ s, new_state n = .ok s ∧ s.holeSquareIndex = 4 ∧
      s.phase = Phase.placement ∧ s.currentPlayer = Player.R ∧
      s.placedR = 0 ∧ s.placedB = 0 ∧ s.blockedSlideSquareIndex = none ∧
      s.winner = none ∧ s.drawReason = none ∧ s.piecesPerPlayer = n.toNat ∧
      (∀ i j, boardGet s.board i j = none) ∧
      (∀ i, i ∈ legal_slide_squares s ↔ i = 1 ∨ i = 3 ∨ i = 5 ∨ i = 7)) := by
  constructor
  · intro hle
    constructor
    · unfold new_state
      rw [if_pos hle]
    · intro r
      unfold new_state
      rw [if_pos hle]
      simp
  · intro hpos
    unfold new_state
    rw [if_neg (by omega)]
    refine ⟨_, rfl, rfl, rfl, rfl, rfl, rfl, rfl, rfl, rfl, rfl, ?_, ?_⟩
    · intro i j
      exact boardGet_replicate_empty i j
    · intro i
      simp only [legal_slide_squares, show slide_neighbors 4 = [1, 7, 3, 5] from by decide,
        List.mem_cons, List.not_mem_nil, or_false]
      tauto

theorem new_state_spec_witness :
    new_state 0 = .error (.valueError "piecesPerPlayer must be positive") ∧
      ∃ s, new_state 16 = .ok s ∧ s.holeSquareIndex = 4 ∧ s.phase = Phase.placement := by
  refine ⟨((new_state_spec 0).1 (by decide)).1, ?_⟩
  obtain ⟨s, h1, h2, h3, _⟩ := (new_state_spec 16).2 (by decide)
  exact ⟨s, h1, h2, h3⟩

/-- C9: in every reachable state the two per-player placement counters sum
to the number of occupied slots on the board (placements fill exactly one
empty slot and bump one counter; slides permute whole squares). -/
theorem placed_count_spec (s : GameState) (h : Reachable s) :
    s.placedR + s.placedB = occupiedCount s.board :=
  reachable_count h

theorem placed_count_spec_witness :
    W18.placedR + W18.placedB = occupiedCount W18.board :=
  placed_count_spec W18 reachable_W18

/-- C10: in every reachable state the legal-slide list is non-empty, and
consequently the `"noLegalSlides"` draw reason is never set. -/
theorem no_draw_spec (s : GameState) (h : Reachable s) :
    legal_slide_squares s ≠ [] ∧ s.drawReason = none :=
  ⟨legal_slide_squares_ne_nil (reachable_wf h).2.2, reachable_draw_none h⟩

theorem no_draw_spec_witness : legal_slide_squares S0 ≠ [] ∧ S0.drawReason = none :=
  no_draw_spec S0 (Reachable.fresh 16 S0 (by rfl))

/-- C8 as stated is false: `W18` is reached from a fresh 16-piece game by
legal moves only, its final slide completes a solid red window (rows 1-2,
columns 2-3) and a solid blue window (rows 3-4, columns 2-3) at once, so
`detect_winner` answers `R` (first in scan order) while a solid `B` window
is also on the board. -/
theorem winner_ties_counterexample :
    Reachable W18 ∧ detect_winner W18 = some Player.R ∧
      solidWindow W18 3 2 Player.B ∧ Player.B ≠ Player.R :=
  ⟨reachable_W18, by decide, by decide, by decide⟩

/-- C8 amended: winning ties cannot be created by a placement.  Whenever a
placement is applied to a reachable state, every solid window of the
resulting state is owned by the placing player (so the winner it yields is
unambiguous); a slide, by contrast, can complete windows for both players
at once as the counterexample shows. -/
theorem placement_no_ties (s s' : GameState) (sq sl : Nat) (p : Player)
    (hreach : Reachable s) (hok : apply_place s sq sl p = .ok s') :
    ∀ q r c, r ≤ 4 → c ≤ 4 → solidWindow s' r c q → q = p := by
  intro q r c hr hc hs
  obtain ⟨hpre, hcases⟩ := apply_place_ok_elim hok
  have hdet : detect_winner s = none := reachable_detect_none hreach hpre.1
  have hempty := hpre.2.2.2.2.2.2.2.2
  have hs2 : solidWindow (place_effect s sq sl p) r c q := by
    rcases hcases with ⟨w, hw, rfl⟩ | ⟨hd, rfl⟩ <;>
      exact (solidWindow_congr (t := place_effect s sq sl p) rfl).mp hs
  exact place_effect_window_owner hdet hempty hr hc hs2

theorem placement_no_ties_witness : ¬ solidWindow W1 0 0 Player.B := by
  intro hs
  have hcontra := placement_no_ties S0 W1 0 2 Player.R (Reachable.fresh 16 S0 (by rfl))
    (by rfl) Player.B 0 0 (by decide) (by decide) hs
  exact absurd hcontra (by decide)

/-- C2: under its preconditions `apply_place` writes the player into the
slot, bumps only that player's counter, and either records the winner
(leaving `currentPlayer` and `phase` as they were) or moves the same
player to the mandatory-slide phase. -/
theorem apply_place_spec (s : GameState) (sq sl : Nat) (p : Player)
    (hwin : s.winner = none) (hdraw : s.drawReason = none)
    (hphase : s.phase = Phase.placement) (hp : p = s.currentPlayer)
    (hsq : sq ≤ 8) (hsl : sl ≤ 3) (hhole : sq ≠ s.holeSquareIndex)
    (hcap : s.placed p < s.piecesPerPlayer)
    (hempty : boardGet s.board sq sl = none)
    (hlen : s.board.length = 9) (hrows : ∀ row ∈ s.board, row.length = 4) :
    ∃ s', apply_place s sq sl p = .ok s' ∧
      boardGet s'.board sq sl = some p ∧
      (∀ i j, ¬(i = sq ∧ j = sl) → boardGet s'.board i j = boardGet s.board i j) ∧
      s'.placed p = s.placed p + 1 ∧
      s'.placed (other p) = s.placed (other p) ∧
      s'.piecesPerPlayer = s.piecesPerPlayer ∧
      s'.holeSquareIndex = s.holeSquareIndex ∧
      s'.blockedSlideSquareIndex = s.blockedSlideSquareIndex ∧
      s'.drawReason = none ∧
      (∀ w, detect_winner s' = some w →
        s'.winner = some w ∧ s'.currentPlayer = s.currentPlayer ∧ s'.phase = s.phase) ∧
      (detect_winner s' = none →
        s'.winner = none ∧ s'.phase = Phase.placementSlide ∧
          s'.currentPlayer = s.currentPlayer) := by
  have hpre : placePre s sq sl p := ⟨hwin, hdraw, hphase, hp, hsq, hsl, hhole, hcap, hempty⟩
  have heq := apply_place_of_pre hpre
  have hsqlen : sq < s.board.length := by omega
  have hsllen : sl < (s.board.getD sq []).length := by
    rw [hrows _ (getD_mem s.board sq [] hsqlen)]
    omega
  rcases hd : detect_winner (place_effect s sq sl p) with _ | w
  · refine ⟨{ place_effect s sq sl p with phase := Phase.placementSlide },
      ?_, ?_, ?_, ?_, ?_, rfl, rfl, rfl, hdraw, ?_, ?_⟩
    · rw [heq]
      simp only [hd]
    · exact boardGet_boardSet_self _ _ _ _ hsqlen hsllen
    · intro i j hij
      exact boardGet_boardSet_ne _ _ _ _ _ _ hij
    · cases p <;> simp [GameState.placed, place_effect]
    · cases p <;> simp [GameState.placed, place_effect, other]
    · intro w hw
      have hds : detect_winner
          ({ place_effect s sq sl p with phase := Phase.placementSlide }) = none :=
        (detect_winner_congr (t := place_effect s sq sl p) rfl).trans hd
      rw [hds] at hw
      exact absurd hw (by simp)
    · exact fun _ => ⟨hwin, rfl, rfl⟩
  · refine ⟨{ place_effect s sq sl p with winner := some w },
      ?_, ?_, ?_, ?_, ?_, rfl, rfl, rfl, hdraw, ?_, ?_⟩
    · rw [heq]
      simp only [hd]
    · exact boardGet_boardSet_self _ _ _ _ hsqlen hsllen
    · intro i j hij
      exact boardGet_boardSet_ne _ _ _ _ _ _ hij
    · cases p <;> simp [GameState.placed, place_effect]
    · cases p <;> simp [GameState.placed, place_effect, other]
    · intro w' hw'
      have hds : detect_winner ({ place_effect s sq sl p with winner := some w }) = some w :=
        (detect_winner_congr (t := place_effect s sq sl p) rfl).trans hd
      rw [hds] at hw'
      obtain rfl := Option.some.inj hw'
      exact ⟨rfl, rfl, rfl⟩
    · intro h0
      have hds : detect_winner ({ place_effect s sq sl p with winner := some w }) = some w :=
        (detect_winner_congr (t := place_effect s sq sl p) rfl).trans hd
      rw [hds] at h0
      exact absurd h0 (by simp)

theorem apply_place_spec_witness :
    ∃ s', apply_place S0 0 0 Player.R = .ok s' ∧
      boardGet s'.board 0 0 = some Player.R ∧
      s'.placed Player.R = S0.placed Player.R + 1 := by
  obtain ⟨s', h1, h2, h3, h4, _⟩ := apply_place_spec S0 0 0 Player.R rfl rfl rfl rfl
    (by decide) (by decide) (by decide) (by decide) (by decide) (by decide) (by decide)
  exact ⟨s', h1, h2, h4⟩



/-- C1: under its preconditions `apply_slide` swaps the whole 4-slot
contents of the slid square and the hole, moves the hole onto the slid
index and locks the vacated index; then either records the winner changing
nothing else, or passes the turn: out of `placementSlide` the phase becomes
`movement` exactly when both counters reached capacity (else back to
`placement`), and out of `movement` the draw reason is set exactly when the
new player has no legal slide. -/
theorem apply_slide_spec (s : GameState) (sq : Nat) (p : Player)
    (hwin : s.winner = none) (hdraw : s.drawReason = none)
    (hphase : s.phase = Phase.placementSlide ∨ s.phase = Phase.movement)
    (hp : p = s.currentPlayer) (hsq : sq ≤ 8) (hhole : sq ≠ s.holeSquareIndex)
    (hblock : s.blockedSlideSquareIndex ≠ some sq)
    (hadj : sq ∈ legal_slide_squares s)
    (hlen : s.board.length = 9) (hh8 : s.holeSquareIndex ≤ 8) :
    ∃ s', apply_slide s sq p = .ok s' ∧
      s'.board.getD s.holeSquareIndex [] = s.board.getD sq [] ∧
      s'.board.getD sq [] = s.board.getD s.holeSquareIndex [] ∧
      (∀ i, i ≠ s.holeSquareIndex → i ≠ sq → s'.board.getD i [] = s.board.getD i []) ∧
      s'.holeSquareIndex = sq ∧
      s'.blockedSlideSquareIndex = some s.holeSquareIndex ∧
      s'.placedR = s.placedR ∧ s'.placedB = s.placedB ∧
      s'.piecesPerPlayer = s.piecesPerPlayer ∧
      (∀ w, detect_winner s' = some w →
        s'.winner = some w ∧ s'.currentPlayer = s.currentPlayer ∧ s'.phase = s.phase ∧
          s'.drawReason = none) ∧
      (detect_winner s' = none → s'.winner = none ∧
        s'.currentPlayer = other s.currentPlayer ∧
        (s.phase = Phase.placementSlide →
          s'.drawReason = none ∧
          (s'.phase = Phase.movement ↔
            s.placed .R ≥ s.piecesPerPlayer ∧ s.placed .B ≥ s.piecesPerPlayer) ∧
          (s'.phase = Phase.movement ∨ s'.phase = Phase.placement)) ∧
        (s.phase = Phase.movement →
          s'.phase = Phase.movement ∧
          (s'.drawReason = some "noLegalSlides" ↔ legal_slide_squares s' = []) ∧
          (s'.drawReason = none ∨ s'.drawReason = some "noLegalSlides"))) := by
  have hpre : slidePre s sq p := ⟨hwin, hdraw, hphase, hp, hsq, hhole, hblock, hadj⟩
  have heq := apply_slide_of_pre hpre
  have hb1 : ((s.board.set s.holeSquareIndex (s.board.getD sq [])).set sq
      (s.board.getD s.holeSquareIndex [])).getD s.holeSquareIndex [] = s.board.getD sq [] := by
    rw [getD_set_ne _ _ _ _ _ hhole]
    exact getD_set_self _ _ _ _ (by omega)
  have hb2 : ((s.board.set s.holeSquareIndex (s.board.getD sq [])).set sq
      (s.board.getD s.holeSquareIndex [])).getD sq [] = s.board.getD s.holeSquareIndex [] :=
    getD_set_self _ _ _ _ (by rw [List.length_set]; omega)
  have hb3 : ∀ i, i ≠ s.holeSquareIndex → i ≠ sq →
      ((s.board.set s.holeSquareIndex (s.board.getD sq [])).set sq
        (s.board.getD s.holeSquareIndex [])).getD i [] = s.board.getD i [] := by
    intro i hi1 hi2
    rw [getD_set_ne _ _ _ _ _ (fun e => hi2 e.symm)]
    exact getD_set_ne _ _ _ _ _ (fun e => hi1 e.symm)
  rcases hd : detect_winner (slide_effect s sq) with _ | w
  · rcases hphase with hps | hpm
    · by_cases hcap : s.placed .R ≥ s.piecesPerPlayer ∧ s.placed .B ≥ s.piecesPerPlayer
      · refine ⟨{ slide_effect s sq with
            currentPlayer := other s.currentPlayer, phase := Phase.movement },
            ?_, hb1, hb2, hb3, rfl, rfl, rfl, rfl, rfl, ?_, ?_⟩
        · rw [heq]
          simp only [hd]
          rw [if_pos hps, if_pos hcap]
        · intro w hw
          have hds : detect_winner ({ slide_effect s sq with
              currentPlayer := other s.currentPlayer, phase := Phase.movement }) = none :=
            (detect_winner_congr (t := slide_effect s sq) rfl).trans hd
          rw [hds] at hw
          exact absurd hw (by simp)
        · refine fun _ => ⟨hwin, rfl, fun _ => ⟨hdraw, iff_of_true rfl hcap, Or.inl rfl⟩, ?_⟩
          intro hm
          rw [hps] at hm
          exact absurd hm (by decide)
      · refine ⟨{ slide_effect s sq with
            currentPlayer := other s.currentPlayer, phase := Phase.placement },
            ?_, hb1, hb2, hb3, rfl, rfl, rfl, rfl, rfl, ?_, ?_⟩
        · rw [heq]
          simp only [hd]
          rw [if_pos hps, if_neg hcap]
        · intro w hw
          have hds : detect_winner ({ slide_effect s sq with
              currentPlayer := other s.currentPlayer, phase := Phase.placement }) = none :=
            (detect_winner_congr (t := slide_effect s sq) rfl).trans hd
          rw [hds] at hw
          exact absurd hw (by simp)
        · refine fun _ => ⟨hwin, rfl, fun _ => ⟨hdraw,
            iff_of_false (fun e =>
              absurd (show Phase.placement = Phase.movement from e) (by decide)) hcap,
            Or.inr rfl⟩, ?_⟩
          intro hm
          rw [hps] at hm
          exact absurd hm (by decide)
    · obtain ⟨m1, m2, m3, m4, m5, m6, m7, m8, m9⟩ := maybe_draw_fields
        ({ slide_effect s sq with currentPlayer := other s.currentPlayer })
      have hXph : ({ slide_effect s sq with
          currentPlayer := other s.currentPlayer } : GameState).phase = Phase.movement := hpm
      have h0 : ({ slide_effect s sq with
          currentPlayer := other s.currentPlayer } : GameState).drawReason = none := hdraw
      have hnotps : ¬ s.phase = Phase.placementSlide := by
        rw [hpm]
        decide
      have hds : detect_winner (_maybe_set_draw_no_slides
          { slide_effect s sq with currentPlayer := other s.currentPlayer }) = none :=
        (detect_winner_congr m1).trans
          ((detect_winner_congr (t := slide_effect s sq) rfl).trans hd)
      have hdr := maybe_draw_drawReason
        ({ slide_effect s sq with currentPlayer := other s.currentPlayer }) hXph
      have hlegsame : legal_slide_squares (_maybe_set_draw_no_slides
          { slide_effect s sq with currentPlayer := other s.currentPlayer }) =
          legal_slide_squares
            ({ slide_effect s sq with currentPlayer := other s.currentPlayer } : GameState) :=
        legal_slide_squares_congr m7 m8
      refine ⟨_, ?_, ?_, ?_, ?_, m7, m8, m4, m5, m6, ?_, ?_⟩
      · rw [heq]
        simp only [hd]
        rw [if_neg hnotps]
      · rw [m1]
        exact hb1
      · rw [m1]
        exact hb2
      · intro i hi1 hi2
        rw [m1]
        exact hb3 i hi1 hi2
      · intro w hw
        rw [hds] at hw
        exact absurd hw (by simp)
      · refine fun _ => ⟨m9.trans hwin, m3, ?_, fun _ => ⟨m2.trans hpm, ?_, ?_⟩⟩
        · intro hcontra
          rw [hpm] at hcontra
          exact absurd hcontra (by decide)
        · rw [hdr, hlegsame]
          by_cases hL : legal_slide_squares
              ({ slide_effect s sq with currentPlayer := other s.currentPlayer } : GameState) = []
          · rw [if_pos hL]
            exact iff_of_true rfl hL
          · rw [if_neg hL]
            exact iff_of_false (fun e => Option.noConfusion (h0.symm.trans e)) hL
        · rw [hdr]
          by_cases hL : legal_slide_squares
              ({ slide_effect s sq with currentPlayer := other s.currentPlayer } : GameState) = []
          · rw [if_pos hL]
            exact Or.inr rfl
          · rw [if_neg hL]
            exact Or.inl h0
  · refine ⟨{ slide_effect s sq with winner := some w },
      ?_, hb1, hb2, hb3, rfl, rfl, rfl, rfl, rfl, ?_, ?_⟩
    · rw [heq]
      simp only [hd]
    · intro w' hw'
      have hds : detect_winner ({ slide_effect s sq with winner := some w }) = some w :=
        (detect_winner_congr (t := slide_effect s sq) rfl).trans hd
      rw [hds] at hw'
      obtain rfl := Option.some.inj hw'
      exact ⟨rfl, rfl, rfl, hdraw⟩
    · intro h0
      have hds : detect_winner ({ slide_effect s sq with winner := some w }) = some w :=
        (detect_winner_congr (t := slide_effect s sq) rfl).trans hd
      rw [hds] at h0
      exact absurd h0 (by simp)

theorem apply_slide_spec_witness :
    ∃ s', apply_slide M0 1 Player.R = .ok s' ∧ s'.holeSquareIndex = 1 ∧
      s'.blockedSlideSquareIndex = some M0.holeSquareIndex := by
  obtain ⟨s', h1, hb1, hb2, hb3, hh, hbl, _⟩ := apply_slide_spec M0 1 Player.R rfl rfl
    (Or.inr rfl) rfl (by decide) (by decide) (by decide) (by decide) (by decide) (by decide)
  exact ⟨s', h1, hh, hbl⟩
